import Mathlib

/-!
# litefs-postgres-benchmark: database abstraction and request handlers

A shallow embedding of `db/database.go` and `cmd/litefs-example/main.go`.

* Go strings are treated as sequences of characters. The only characters the
  placeholder pattern looks at are `$` and the ASCII digits, which are single
  bytes that never occur inside a multi-byte UTF-8 sequence, so scanning
  characters and scanning bytes agree.
* Calls into libraries (`database/sql`, `net/http`, `log`, `time`) are recorded
  as events, in program order; their results are read from an environment.
-/

namespace LitefsBench

/-! ## Placeholder rewriting (`db/database.go`, lines 101-105) -/

/-- The class `\d` of the pattern: in Go's regexp syntax it is exactly `[0-9]`. -/
def isDigit (c : Char) : Bool := decide ('0' ≤ c) && decide (c ≤ '9')

/-- Number of characters the greedy `\d+` consumes at the head of the input. -/
def digitsLen : List Char → Nat
  | [] => 0
  | c :: cs => if isDigit c then digitsLen cs + 1 else 0

/-- Match of `pgPlaceholderRegexp = \$\d+` anchored at the head of the input:
the length of the (greedy, hence longest) match, or `none`. -/
def matchLen : List Char → Option Nat
  | [] => none
  | c :: cs => if c = '$' ∧ 0 < digitsLen cs then some (1 + digitsLen cs) else none

/-- The loop of `Regexp.ReplaceAllString(src, "?")`. The first argument is the
number of characters still covered by the most recent match (the search resumes
at the end of that match); with `0` pending, the leftmost match is looked for
at the current position: on a match the replacement `?` is emitted, otherwise
the character is copied. The replacement text `?` holds no `$`, so it is
inserted literally. -/
def replaceAllFrom : Nat → List Char → List Char
  | _, [] => []
  | skip + 1, _ :: rest => replaceAllFrom skip rest
  | 0, c :: rest =>
    match matchLen (c :: rest) with
    | some n => '?' :: replaceAllFrom (n - 1) rest
    | none => c :: replaceAllFrom 0 rest

/-- Character-level `pgPlaceholderRegexp.ReplaceAllString(query, "?")`. -/
def replaceAll (src : List Char) : List Char := replaceAllFrom 0 src

/-- Go: `func replacePostgresPlaceholders(query string) string`. -/
def replacePostgresPlaceholders (query : String) : String :=
  String.mk (replaceAll query.data)

/-! ### Vocabulary for stating what the rewrite does -/

/-- Whether the input begins with an ASCII digit. -/
def startsWithDigit : List Char → Bool
  | [] => false
  | c :: _ => isDigit c

/-- Whether the text holds an occurrence of the pattern: some `$` in it is
immediately followed by an ASCII digit. -/
def hasPlaceholder : List Char → Bool
  | [] => false
  | c :: cs => (decide (c = '$') && startsWithDigit cs) || hasPlaceholder cs

/-- The statement text spelled by a list of placeholders, each given by its
digits and the text that follows it: `$` digits text, in order. -/
def sourceOf : List (List Char × List Char) → List Char
  | [] => []
  | p :: ps => '$' :: p.1 ++ p.2 ++ sourceOf ps

/-- The same list with every placeholder replaced by the single marker `?`. -/
def rewrittenOf : List (List Char × List Char) → List Char
  | [] => []
  | p :: ps => '?' :: p.2 ++ rewrittenOf ps

/-- A placeholder and its following text, as cut by a leftmost greedy scan: the
digits are one or more ASCII digits, and the following text neither begins with
a digit (the digit run is maximal) nor holds an occurrence of the pattern. -/
def WellCut (p : List Char × List Char) : Prop :=
  p.1 ≠ [] ∧ p.1.all isDigit = true ∧ startsWithDigit p.2 = false ∧ hasPlaceholder p.2 = false

instance (p : List Char × List Char) : Decidable (WellCut p) := by
  unfold WellCut; infer_instance

/-- A statement cut at every occurrence of the pattern: leading text without an
occurrence, then the placeholders with their following texts. -/
def WellSplit (lead : List Char) (parts : List (List Char × List Char)) : Prop :=
  hasPlaceholder lead = false ∧ ∀ p ∈ parts, WellCut p

instance (lead : List Char) (parts : List (List Char × List Char)) :
    Decidable (WellSplit lead parts) := by
  unfold WellSplit; infer_instance

/-! ### The rewrite with provenance -/

/-- Value of a run of ASCII digits read as a decimal number: the argument
number that the placeholder `$digits` refers to. -/
def decimalValue (ds : List Char) : Nat :=
  ds.foldl (fun acc d => 10 * acc + (d.toNat - '0'.toNat)) 0

/-- The loop of `replaceAllFrom`, where every output character also records
where it comes from: `some k` for the marker written in the place of the
placeholder `$k`, `none` for a character copied from the statement. -/
def replaceAllTaggedFrom : Nat → List Char → List (Char × Option Nat)
  | _, [] => []
  | skip + 1, _ :: rest => replaceAllTaggedFrom skip rest
  | 0, c :: rest =>
    match matchLen (c :: rest) with
    | some n =>
      ('?', some (decimalValue (rest.take (n - 1)))) :: replaceAllTaggedFrom (n - 1) rest
    | none => (c, none) :: replaceAllTaggedFrom 0 rest

/-- For each `?` of the rewritten statement, left to right: the argument number
of the placeholder it stands for (`none` when that `?` was already a character
of the statement). -/
def markerArgs (q : List Char) : List (Option Nat) :=
  ((replaceAllTaggedFrom 0 q).filter (fun x => decide (x.1 = '?'))).map Prod.snd

/-- The argument numbers of the placeholders of the statement, left to right. -/
def placeholderArgs (q : List Char) : List Nat :=
  (replaceAllTaggedFrom 0 q).filterMap Prod.snd

/-! ## Connections (`db/database.go`, lines 21-99) -/

/-- A `*sql.DB` value returned by `sql.Open`. -/
abbrev Handle := Nat

/-- A non-nil `error`; the error interface value `nil` is `none : Option Err`. -/
abbrev Err := String

/-- An argument passed along with a statement. -/
abbrev Arg := String

/-- Arithmetic of `time.Duration` (an `int64` count of nanoseconds) wraps. -/
def wrapInt64 (x : Int) : Int := (x + 2 ^ 63) % 2 ^ 64 - 2 ^ 63

/-- Go: `time.Second`, in nanoseconds. -/
def Second : Int := 1000000000

/-- What one pass through the body of the loop in `Connect` meets:
`sql.Open` fails, or it returns a handle whose `Ping` fails, or both succeed. -/
inductive Attempt where
  | openFailed (err : Err)
  | pingFailed (db : Handle) (err : Err)
  | connected (db : Handle)
  deriving DecidableEq, Repr

/-- Library calls made by `Connect`, in program order. -/
inductive ConnEvent where
  | sqlOpen (driverName connString : String)
  | ping (db : Handle)
  | close (db : Handle)
  | sleep (d : Int)
  deriving DecidableEq, Repr

/-- Go: `type PostgresDB struct { DB *sql.DB }`; `none` is the nil pointer. -/
structure PostgresDB where
  DB : Option Handle
  deriving DecidableEq, Repr

/-- Go: `type SqliteDB struct { DB *sql.DB }`; `none` is the nil pointer. -/
structure SqliteDB where
  DB : Option Handle
  deriving DecidableEq, Repr

/-- Receiver after the call, returned error, and the library calls made. -/
structure ConnectResult where
  db : PostgresDB
  err : Option Err
  events : List ConnEvent
  deriving DecidableEq, Repr

/-- The `for i := 0; i < 3; i++` loop of `PostgresDB.Connect`. The first argument
counts the iterations left (`3 - i`); `world connString i` is what attempt `i`
meets. -/
def connectLoop (world : String → Nat → Attempt) (connString : String) :
    Nat → Nat → Int → Option Err → PostgresDB → List ConnEvent → ConnectResult
  | 0, _, _, lastErr, p, events => ⟨p, lastErr, events⟩
  | left + 1, i, wait, _, p, events =>
    match world connString i with
    | .connected db =>
      ⟨{ p with DB := some db }, none, events ++ [.sqlOpen "postgres" connString, .ping db]⟩
    | .pingFailed db err =>
      connectLoop world connString left (i + 1) (wrapInt64 (wait * 2)) (some err) p
        (events ++ [.sqlOpen "postgres" connString, .ping db, .close db, .sleep wait])
    | .openFailed err =>
      connectLoop world connString left (i + 1) (wrapInt64 (wait * 2)) (some err) p
        (events ++ [.sqlOpen "postgres" connString, .sleep wait])

/-- Go: `func (p *PostgresDB) Connect(connString string) error`. -/
def PostgresDB.Connect (p : PostgresDB) (world : String → Nat → Attempt)
    (connString : String) : ConnectResult :=
  connectLoop world connString 3 0 (5 * Second) none p []

/-- The error of a failed attempt; `none` for a successful one. -/
def Attempt.error : Attempt → Option Err
  | .openFailed err => some err
  | .pingFailed _ err => some err
  | .connected _ => none

/-- The library calls of one attempt, before any wait. -/
def Attempt.events (connString : String) : Attempt → List ConnEvent
  | .openFailed _ => [.sqlOpen "postgres" connString]
  | .pingFailed db _ => [.sqlOpen "postgres" connString, .ping db, .close db]
  | .connected db => [.sqlOpen "postgres" connString, .ping db]

/-- The handle a failed attempt had opened, if any. -/
def Attempt.openedAndFailed : Attempt → Option Handle
  | .pingFailed db _ => some db
  | _ => none

/-- Number of calls of `sql.Open` among the events. -/
def opens (events : List ConnEvent) : Nat :=
  (events.filter fun e => match e with | .sqlOpen _ _ => true | _ => false).length

/-- The waits among the events, in order. -/
def sleeps (events : List ConnEvent) : List Int :=
  events.filterMap fun e => match e with | .sleep d => some d | _ => none

/-- The handles closed among the events, in order. -/
def closes (events : List ConnEvent) : List Handle :=
  events.filterMap fun e => match e with | .close db => some db | _ => none

/-! ## Statements handed to the driver -/

/-- Which method of `*sql.DB` is called; `ExecContext` carries its context. -/
inductive Op where
  | query
  | exec
  | execContext (ctx : Nat)
  deriving DecidableEq, Repr

/-- A call on a `*sql.DB` handle: the statement text and the arguments. -/
structure DriverCall where
  db : Handle
  op : Op
  query : String
  args : List Arg
  deriving DecidableEq, Repr

/-- Go: `PostgresDB.Query`. `none`: the handle is nil and the call panics. -/
def PostgresDB.Query (p : PostgresDB) (query : String) (args : List Arg) : Option DriverCall :=
  p.DB.map fun db => ⟨db, .query, query, args⟩

/-- Go: `PostgresDB.Exec`. -/
def PostgresDB.Exec (p : PostgresDB) (query : String) (args : List Arg) : Option DriverCall :=
  p.DB.map fun db => ⟨db, .exec, query, args⟩

/-- Go: `PostgresDB.ExecContext`. -/
def PostgresDB.ExecContext (p : PostgresDB) (ctx : Nat) (query : String) (args : List Arg) :
    Option DriverCall :=
  p.DB.map fun db => ⟨db, .execContext ctx, query, args⟩

/-- Go: `SqliteDB.Query`. -/
def SqliteDB.Query (s : SqliteDB) (query : String) (args : List Arg) : Option DriverCall :=
  s.DB.map fun db => ⟨db, .query, query, args⟩

/-- Go: `SqliteDB.Exec`. -/
def SqliteDB.Exec (s : SqliteDB) (query : String) (args : List Arg) : Option DriverCall :=
  let query := replacePostgresPlaceholders query
  s.DB.map fun db => ⟨db, .exec, query, args⟩

/-- Go: `SqliteDB.ExecContext`. -/
def SqliteDB.ExecContext (s : SqliteDB) (ctx : Nat) (query : String) (args : List Arg) :
    Option DriverCall :=
  let query := replacePostgresPlaceholders query
  s.DB.map fun db => ⟨db, .execContext ctx, query, args⟩

/-- The two implementations of the Go interface `Database`. -/
inductive Database where
  | sqlite (s : SqliteDB)
  | postgres (p : PostgresDB)
  deriving DecidableEq, Repr

/-- Interface dispatch of `Query`. -/
def Database.Query : Database → String → List Arg → Option DriverCall
  | .sqlite s, query, args => s.Query query args
  | .postgres p, query, args => p.Query query args

/-- Interface dispatch of `Exec`. -/
def Database.Exec : Database → String → List Arg → Option DriverCall
  | .sqlite s, query, args => s.Exec query args
  | .postgres p, query, args => p.Exec query args

/-- Interface dispatch of `ExecContext`. -/
def Database.ExecContext : Database → Nat → String → List Arg → Option DriverCall
  | .sqlite s, ctx, query, args => s.ExecContext ctx query args
  | .postgres p, ctx, query, args => p.ExecContext ctx query args

/-! ## `cmd/litefs-example/main.go` -/

/-- The migration step of `run` (lines 72-82): the script is chosen by the
`-db` flag and issued with `database.Exec(migration)`. The two embedded schema
files are parameters. -/
def runMigration (database : Database) (conn schemaSQLSqlite schemaSQLPostgres : String) :
    Option DriverCall :=
  let migration :=
    if conn = "sqlite" then schemaSQLSqlite
    else if conn = "postgres" then schemaSQLPostgres
    else ""
  database.Exec migration []

/-- Go: `type Person struct`. -/
structure Person where
  ID : Int
  Name : String
  Phone : String
  Company : String
  deriving DecidableEq, Repr

/-- Go: `type TemplateData struct`. -/
structure TemplateData where
  Region : String
  Persons : List Person
  deriving DecidableEq, Repr

/-- The parts of `*http.Request` the handlers read. -/
structure Request where
  /-- Go: `r.Method`. -/
  Method : String
  /-- Go: `r.URL.Query().Get(key)`. -/
  queryGet : String → String
  /-- Go: `r.Header.Get(key)`. -/
  headerGet : String → String
  /-- Go: `r.Referer()`. -/
  referer : String
  /-- Go: `r.Context()`. -/
  ctx : Nat

/-- A cursor `*sql.Rows`: each row that `Next` yields with the outcome of its
`Scan`, and the result of `Close`. -/
structure Rows where
  items : List (Except Err Person)
  closeErr : Option Err

/-- What the database answers to a call on the handle. -/
structure Driver where
  /-- The error of `Exec` or `ExecContext`, `none` for nil. -/
  exec : DriverCall → Option Err
  /-- The result of `Query`. -/
  query : DriverCall → Except Err Rows

/-- What a handler does, in program order. -/
inductive Effect where
  | panic
  | logPrintf (format : String) (args : List String)
  | headerSet (key value : String)
  | httpError (text : String) (code : Nat)
  | httpRedirect (url : String) (code : Nat)
  | write (text : String)
  | driver (call : DriverCall)
  | rowsClose
  deriving DecidableEq, Repr

/-- Go: `http.StatusInternalServerError`. -/
def StatusInternalServerError : Nat := 500

/-- Go: `http.StatusMethodNotAllowed`. -/
def StatusMethodNotAllowed : Nat := 405

/-- Go: `http.StatusFound`. -/
def StatusFound : Nat := 302

/-- The statement text of `handleIndex`. -/
def indexQuery : String :=
  "\n\t\tSELECT id, name, phone, company\n\t\tFROM persons\n\t\tORDER BY id DESC\n\t\tLIMIT 10\n\t"

/-- The statement text of `handleGenerate`. -/
def insertStatement : String :=
  "INSERT INTO persons (name, phone, company) VALUES ($1, $2, $3)"

/-- The loop `for rows.Next() { ... rows.Scan ... persons = append(persons, &person) }`:
the first failing `Scan` ends it with the error. -/
def scanRows : List Person → List (Except Err Person) → Except Err (List Person)
  | persons, [] => .ok persons
  | _, .error err :: _ => .error err
  | persons, .ok person :: rest => scanRows (persons ++ [person]) rest

/-- Go: `fmt.Fprintf(w, "- %s @ %s (%s)\n", person.Name, person.Company, person.Phone)`. -/
def personLine (person : Person) : String :=
  "- " ++ person.Name ++ " @ " ++ person.Company ++ " (" ++ person.Phone ++ ")\n"

/-- Go: `func handleIndex(w http.ResponseWriter, r *http.Request)`.
`getenv` is `os.Getenv`; `indexTmpl` gives what executing the embedded page
template writes and the error it returns. -/
def handleIndex (getenv : String → String) (database : Database) (driver : Driver)
    (indexTmpl : TemplateData → List String × Option Err) (r : Request) : List Effect :=
  let region := r.queryGet "region"
  if region ≠ "" ∧ region ≠ getenv "FLY_REGION" then
    [.logPrintf "redirecting from %q to %q" [getenv "FLY_REGION", region],
     .headerSet "fly-replay" ("region=" ++ region)]
  else
    match database.Query indexQuery [] with
    | none => [.panic]
    | some call =>
      match driver.query call with
      | .error err => [.driver call, .httpError err StatusInternalServerError]
      | .ok rows =>
        match scanRows [] rows.items with
        | .error err => [.driver call, .httpError err StatusInternalServerError, .rowsClose]
        | .ok persons =>
          match rows.closeErr with
          | some err =>
            [.driver call, .rowsClose, .httpError err StatusInternalServerError, .rowsClose]
          | none =>
            let tmplData : TemplateData := ⟨getenv "FLY_REGION", persons⟩
            if r.headerGet "accept" = "text/plain" then
              [.driver call, .rowsClose, .write ("REGION: " ++ tmplData.Region ++ "\n\n")]
                ++ tmplData.Persons.map (fun person => .write (personLine person))
                ++ [.rowsClose]
            else
              match indexTmpl tmplData with
              | (chunks, some err) =>
                [.driver call, .rowsClose] ++ chunks.map .write
                  ++ [.httpError err StatusInternalServerError, .rowsClose]
              | (chunks, none) => [.driver call, .rowsClose] ++ chunks.map .write ++ [.rowsClose]

/-- Go: `func handleGenerate(w http.ResponseWriter, r *http.Request)`.
`name`, `phone`, `company` are what `gofakeit` generated. -/
def handleGenerate (database : Database) (driver : Driver) (name phone company : String)
    (r : Request) : List Effect :=
  if r.Method ≠ "POST" then
    [.httpError "Method not allowed" StatusMethodNotAllowed]
  else
    let person : Person := ⟨0, name, phone, company⟩
    match database.ExecContext r.ctx insertStatement
        [person.Name, person.Phone, person.Company] with
    | none => [.panic]
    | some call =>
      match driver.exec call with
      | some _ => [.driver call, .httpError "Method not alllowed" StatusMethodNotAllowed]
      | none => [.driver call, .httpRedirect r.referer StatusFound]

/-! ### Reading a response off the effects -/

/-- The status line of the response: set by the first of `http.Error`,
`http.Redirect` or a write (which sends 200); 200 when the handler returns
without any of them; `none` when the handler panicked. -/
def statusCode : List Effect → Option Nat
  | [] => some 200
  | .httpError _ code :: _ => some code
  | .httpRedirect _ code :: _ => some code
  | .write _ :: _ => some 200
  | .panic :: _ => none
  | _ :: rest => statusCode rest

/-- The statements issued to the database. -/
def driverCalls (effects : List Effect) : List DriverCall :=
  effects.filterMap fun e => match e with | .driver call => some call | _ => none

/-- The targets of the redirects issued with `http.Redirect`. -/
def redirects (effects : List Effect) : List String :=
  effects.filterMap fun e => match e with | .httpRedirect url _ => some url | _ => none

/-- The texts written to the response with `fmt.Fprintf`, in order. -/
def written (effects : List Effect) : List String :=
  effects.filterMap fun e => match e with | .write text => some text | _ => none

/-- The value last set for a response header. -/
def headerValue (key : String) (effects : List Effect) : Option String :=
  (effects.filterMap fun e =>
    match e with
    | .headerSet k v => if k = key then some v else none
    | _ => none).getLast?

/-! ### The table behind the read statement -/

/-- The rows selected by `SELECT ... FROM persons ORDER BY id DESC LIMIT 10`
from a table: sorted by descending identifier, cut after ten. -/
def selectLatest (table : List Person) : List Person :=
  (table.insertionSort fun a b => b.ID ≤ a.ID).take 10

/-- A database holding `table` that accepts every write and answers the read
statement of `handleIndex` with `selectLatest`. -/
def tableDriver (table : List Person) : Driver where
  exec := fun _ => none
  query := fun call =>
    if call.query = indexQuery then .ok ⟨(selectLatest table).map .ok, none⟩
    else .error "unsupported statement"

/-! ### Vocabulary for stating what `Connect` does -/

/-- The library calls of `k` failed attempts, each followed by its wait: attempt
`i` (counted from 0) is followed by a wait of 5 s doubled `i` times. -/
def failedRounds (world : String → Nat → Attempt) (connString : String) : Nat → List ConnEvent
  | 0 => []
  | k + 1 =>
    failedRounds world connString k ++ (world connString k).events connString
      ++ [.sleep (5 * Second * 2 ^ k)]

/-- Concatenation of a list of texts, in order. -/
def concatAll : List String → String
  | [] => ""
  | s :: rest => s ++ concatAll rest

/-! ### Lemmas on the scan -/

theorem replaceAllFrom_drop (n : Nat) (s : List Char) :
    replaceAllFrom n s = replaceAllFrom 0 (s.drop n) := by
  induction s generalizing n with
  | nil => cases n <;> simp [replaceAllFrom]
  | cons c rest ih =>
    cases n with
    | zero => simp
    | succ k => simp [replaceAllFrom, ih k]

theorem startsWithDigit_append (a b : List Char) (hb : startsWithDigit b = false) :
    startsWithDigit (a ++ b) = startsWithDigit a := by
  cases a with
  | nil => simpa [startsWithDigit] using hb
  | cons c cs => simp [startsWithDigit]

theorem digitsLen_pos_iff (s : List Char) : 0 < digitsLen s ↔ startsWithDigit s = true := by
  cases s with
  | nil => simp [digitsLen, startsWithDigit]
  | cons c cs =>
    by_cases h : isDigit c = true <;> simp [digitsLen, startsWithDigit, h]

theorem digitsLen_append (ds rest : List Char) (hds : ds.all isDigit = true)
    (hrest : startsWithDigit rest = false) : digitsLen (ds ++ rest) = ds.length := by
  induction ds with
  | nil =>
    have := (digitsLen_pos_iff rest).not
    simp [hrest] at this
    simpa using this
  | cons d ds ih =>
    simp only [List.all_cons, Bool.and_eq_true] at hds
    simp [digitsLen, hds.1, ih hds.2]

theorem sourceOf_startsWithDigit (parts : List (List Char × List Char)) :
    startsWithDigit (sourceOf parts) = false := by
  cases parts with
  | nil => rfl
  | cons p ps => simp [sourceOf, startsWithDigit, isDigit]

theorem rewrittenOf_startsWithDigit (parts : List (List Char × List Char)) :
    startsWithDigit (rewrittenOf parts) = false := by
  cases parts with
  | nil => rfl
  | cons p ps => simp [rewrittenOf, startsWithDigit, isDigit]

/-- A match at the head: the marker is emitted and the scan resumes after the
whole digit run. -/
theorem replaceAll_placeholder (ds rest : List Char) (hne : ds ≠ [])
    (hds : ds.all isDigit = true) (hrest : startsWithDigit rest = false) :
    replaceAll ('$' :: (ds ++ rest)) = '?' :: replaceAll rest := by
  have hlen := digitsLen_append ds rest hds hrest
  have hpos : 0 < ds.length := List.length_pos.mpr hne
  simp only [replaceAll, replaceAllFrom, matchLen, hlen, hpos, and_self, if_true]
  rw [replaceAllFrom_drop]
  simp

/-- Text without an occurrence, followed by something that is not a digit, is
copied unchanged. -/
theorem replaceAll_text (t rest : List Char) (ht : hasPlaceholder t = false)
    (hrest : startsWithDigit rest = false) :
    replaceAll (t ++ rest) = t ++ replaceAll rest := by
  induction t with
  | nil => rfl
  | cons c cs ih =>
    simp only [hasPlaceholder, Bool.or_eq_false_iff, Bool.and_eq_false_iff,
      decide_eq_false_iff_not] at ht
    have hno : matchLen (c :: (cs ++ rest)) = none := by
      simp only [matchLen, ite_eq_right_iff]
      intro h
      have h2 := (digitsLen_pos_iff _).mp h.2
      rw [startsWithDigit_append _ _ hrest] at h2
      rcases ht.1 with h1 | h1
      · exact absurd h.1 h1
      · simp [h1] at h2
    have hcs : replaceAllFrom 0 (cs ++ rest) = cs ++ replaceAllFrom 0 rest := ih ht.2
    show replaceAllFrom 0 (c :: (cs ++ rest)) = c :: (cs ++ replaceAllFrom 0 rest)
    rw [replaceAllFrom, hno, hcs]

theorem replaceAll_sourceOf (parts : List (List Char × List Char))
    (h : ∀ p ∈ parts, WellCut p) : replaceAll (sourceOf parts) = rewrittenOf parts := by
  induction parts with
  | nil => rfl
  | cons p ps ih =>
    obtain ⟨hne, hds, hsd, hnp⟩ := h p (List.mem_cons_self _ _)
    have hps := ih (fun q hq => h q (List.mem_cons_of_mem _ hq))
    have htail : startsWithDigit (p.2 ++ sourceOf ps) = false := by
      rw [startsWithDigit_append _ _ (sourceOf_startsWithDigit ps)]; exact hsd
    simp only [sourceOf, rewrittenOf, List.cons_append, List.append_assoc]
    rw [replaceAll_placeholder p.1 _ hne hds htail,
      replaceAll_text p.2 _ hnp (sourceOf_startsWithDigit ps), hps]

/-- The rewrite of a statement cut at its placeholders. -/
theorem replaceAll_split (lead : List Char) (parts : List (List Char × List Char))
    (h : WellSplit lead parts) :
    replaceAll (lead ++ sourceOf parts) = lead ++ rewrittenOf parts := by
  rw [replaceAll_text lead _ h.1 (sourceOf_startsWithDigit parts), replaceAll_sourceOf parts h.2]

theorem take_digitsLen_all (s : List Char) : (s.take (digitsLen s)).all isDigit = true := by
  induction s with
  | nil => rfl
  | cons c cs ih =>
    by_cases h : isDigit c = true
    · simp only [digitsLen, h, if_true, List.take_succ_cons, List.all_cons, Bool.true_and]
      exact ih
    · simp [digitsLen, h]

theorem drop_digitsLen_startsWithDigit (s : List Char) :
    startsWithDigit (s.drop (digitsLen s)) = false := by
  induction s with
  | nil => rfl
  | cons c cs ih =>
    by_cases h : isDigit c = true
    · simp only [digitsLen, h, if_true, List.drop_succ_cons]
      exact ih
    · simp only [digitsLen, h, List.drop_zero, startsWithDigit]
      simpa using h

theorem hasPlaceholder_drop (n : Nat) (s : List Char) (h : hasPlaceholder s = false) :
    hasPlaceholder (s.drop n) = false := by
  induction n generalizing s with
  | zero => simpa using h
  | succ k ih =>
    cases s with
    | nil => rfl
    | cons c cs =>
      simp only [hasPlaceholder, Bool.or_eq_false_iff] at h
      simpa using ih cs h.2

/-- Every statement can be cut at its placeholders. -/
theorem exists_split (q : List Char) :
    ∃ lead parts, WellSplit lead parts ∧ q = lead ++ sourceOf parts := by
  induction q with
  | nil => exact ⟨[], [], ⟨rfl, by simp⟩, rfl⟩
  | cons c rest ih =>
    obtain ⟨lead, parts, ⟨hlead, hparts⟩, hq⟩ := ih
    have hsd : startsWithDigit rest = startsWithDigit lead := by
      rw [hq, startsWithDigit_append _ _ (sourceOf_startsWithDigit parts)]
    by_cases hm : c = '$' ∧ startsWithDigit lead = true
    · have hpos : 0 < digitsLen lead := (digitsLen_pos_iff lead).mpr hm.2
      refine ⟨[], (lead.take (digitsLen lead), lead.drop (digitsLen lead)) :: parts,
        ⟨rfl, ?_⟩, ?_⟩
      · intro p hp
        rcases List.mem_cons.mp hp with rfl | hp
        · refine ⟨?_, take_digitsLen_all lead, drop_digitsLen_startsWithDigit lead,
            hasPlaceholder_drop _ _ hlead⟩
          intro hnil
          have hlen := congrArg List.length hnil
          simp only [List.length_take, List.length_nil] at hlen
          have hle : 0 < lead.length := by
            cases lead with
            | nil => simp [digitsLen] at hpos
            | cons _ _ => simp
          omega
        · exact hparts p hp
      · simp only [sourceOf, List.nil_append, List.cons_append, List.append_assoc]
        rw [← List.append_assoc, List.take_append_drop, hm.1, hq]
    · refine ⟨c :: lead, parts, ⟨?_, hparts⟩, by rw [hq]; rfl⟩
      simp only [hasPlaceholder, hlead, Bool.or_false, Bool.and_eq_false_iff,
        decide_eq_false_iff_not]
      by_cases hc : c = '$'
      · right
        simpa [hc] using hm
      · exact Or.inl hc

theorem count_digits (ds : List Char) (h : ds.all isDigit = true) : ds.count '?' = 0 := by
  rw [List.count_eq_zero]
  intro hmem
  have := List.all_eq_true.mp h _ hmem
  revert this
  decide

/-- The rewrite adds one marker per placeholder and no other. -/
theorem count_rewrittenOf (parts : List (List Char × List Char))
    (h : ∀ p ∈ parts, WellCut p) :
    (rewrittenOf parts).count '?' = (sourceOf parts).count '?' + parts.length := by
  induction parts with
  | nil => rfl
  | cons p ps ih =>
    obtain ⟨_, hds, _, _⟩ := h p (List.mem_cons_self _ _)
    have hps := ih (fun q hq => h q (List.mem_cons_of_mem _ hq))
    have hdollar : ('$' == '?') = false := by decide
    simp only [sourceOf, rewrittenOf, List.cons_append, List.count_cons, List.count_append,
      count_digits p.1 hds, hps, List.length_cons, hdollar]
    simp
    omega

theorem hasPlaceholder_cons (c : Char) (cs : List Char) :
    hasPlaceholder (c :: cs) =
      ((decide (c = '$') && startsWithDigit cs) || hasPlaceholder cs) := rfl

theorem hasPlaceholder_append (a b : List Char) (hb : startsWithDigit b = false) :
    hasPlaceholder (a ++ b) = (hasPlaceholder a || hasPlaceholder b) := by
  induction a with
  | nil => simp [hasPlaceholder]
  | cons c cs ih =>
    rw [List.cons_append, hasPlaceholder_cons, hasPlaceholder_cons, ih,
      startsWithDigit_append _ _ hb, Bool.or_assoc]

theorem hasPlaceholder_rewrittenOf (parts : List (List Char × List Char))
    (h : ∀ p ∈ parts, WellCut p) : hasPlaceholder (rewrittenOf parts) = false := by
  induction parts with
  | nil => rfl
  | cons p ps ih =>
    obtain ⟨_, _, _, hnp⟩ := h p (List.mem_cons_self _ _)
    have hps := ih (fun q hq => h q (List.mem_cons_of_mem _ hq))
    have hq : decide ('?' = '$') = false := by decide
    rw [rewrittenOf, List.cons_append, hasPlaceholder_cons, hq,
      hasPlaceholder_append _ _ (rewrittenOf_startsWithDigit ps), hnp, hps]
    rfl

/-- The output of the rewrite holds no occurrence of the pattern. -/
theorem hasPlaceholder_replaceAll (q : List Char) : hasPlaceholder (replaceAll q) = false := by
  obtain ⟨lead, parts, hsplit, hq⟩ := exists_split q
  rw [hq, replaceAll_split lead parts hsplit,
    hasPlaceholder_append _ _ (rewrittenOf_startsWithDigit parts), hsplit.1,
    hasPlaceholder_rewrittenOf parts hsplit.2]
  rfl

/-- Text without an occurrence is left as it is. -/
theorem replaceAll_of_no_placeholder (t : List Char) (h : hasPlaceholder t = false) :
    replaceAll t = t := by
  have := replaceAll_text t [] h rfl
  simpa [replaceAll, replaceAllFrom] using this

/-- What `hasPlaceholder` decides: no `$` of the text is immediately followed by
a digit. -/
theorem hasPlaceholder_eq_false_iff (t : List Char) :
    hasPlaceholder t = false ↔
      ∀ pre d post, t = pre ++ '$' :: d :: post → isDigit d = false := by
  induction t with
  | nil =>
    simp only [hasPlaceholder, true_iff]
    intro pre d post h
    simp at h
  | cons c cs ih =>
    simp only [hasPlaceholder, Bool.or_eq_false_iff, Bool.and_eq_false_iff,
      decide_eq_false_iff_not]
    constructor
    · rintro ⟨h1, h2⟩ pre d post heq
      cases pre with
      | nil =>
        simp only [List.nil_append, List.cons.injEq] at heq
        rcases h1 with h1 | h1
        · exact absurd heq.1 h1
        · rw [heq.2] at h1
          simpa [startsWithDigit] using h1
      | cons e pre =>
        simp only [List.cons_append, List.cons.injEq] at heq
        exact ih.mp h2 pre d post heq.2
    · intro h
      refine ⟨?_, ih.mpr (fun pre d post heq => h (c :: pre) d post (by simp [heq]))⟩
      by_cases hc : c = '$'
      · right
        cases cs with
        | nil => rfl
        | cons d post =>
          exact h [] d post (by simp [hc])
      · exact Or.inl hc

/-! ### Lemmas on provenance -/

theorem replaceAllTaggedFrom_fst (n : Nat) (s : List Char) :
    (replaceAllTaggedFrom n s).map Prod.fst = replaceAllFrom n s := by
  induction s generalizing n with
  | nil => cases n <;> rfl
  | cons c rest ih =>
    cases n with
    | succ k => simpa [replaceAllTaggedFrom, replaceAllFrom] using ih k
    | zero =>
      rw [replaceAllTaggedFrom, replaceAllFrom]
      cases matchLen (c :: rest) with
      | none => simpa using ih 0
      | some m => simpa using ih (m - 1)

theorem replaceAllTaggedFrom_markers (n : Nat) (s : List Char) (h : '?' ∉ s) :
    ((replaceAllTaggedFrom n s).filter (fun x => decide (x.1 = '?'))).map Prod.snd
      = ((replaceAllTaggedFrom n s).filterMap Prod.snd).map some := by
  induction s generalizing n with
  | nil => cases n <;> rfl
  | cons c rest ih =>
    have hc : ¬ c = '?' := fun hc => h (by simp [hc])
    have hrest : '?' ∉ rest := fun hm => h (List.mem_cons_of_mem _ hm)
    cases n with
    | succ k => simpa [replaceAllTaggedFrom] using ih k hrest
    | zero =>
      rw [replaceAllTaggedFrom]
      cases matchLen (c :: rest) with
      | none => simpa [hc] using ih 0 hrest
      | some m => simpa using ih (m - 1) hrest

theorem count_map_fst (l : List (Char × Option Nat)) :
    (l.map Prod.fst).count '?' = ((l.filter (fun x => decide (x.1 = '?'))).map Prod.snd).length := by
  induction l with
  | nil => rfl
  | cons x xs ih =>
    by_cases hx : x.1 = '?'
    · simp [List.count_cons, hx, ih]
    · simp [List.count_cons, hx, ih]

theorem replaceAllTaggedFrom_drop (n : Nat) (s : List Char) :
    replaceAllTaggedFrom n s = replaceAllTaggedFrom 0 (s.drop n) := by
  induction s generalizing n with
  | nil => cases n <;> simp [replaceAllTaggedFrom]
  | cons c rest ih =>
    cases n with
    | zero => simp
    | succ k => simp [replaceAllTaggedFrom, ih k]

theorem tagged_placeholder (ds rest : List Char) (hne : ds ≠ [])
    (hds : ds.all isDigit = true) (hrest : startsWithDigit rest = false) :
    replaceAllTaggedFrom 0 ('$' :: (ds ++ rest))
      = ('?', some (decimalValue ds)) :: replaceAllTaggedFrom 0 rest := by
  have hlen := digitsLen_append ds rest hds hrest
  have hpos : 0 < ds.length := List.length_pos.mpr hne
  simp only [replaceAllTaggedFrom, matchLen, hlen, hpos, and_self, if_true]
  rw [replaceAllTaggedFrom_drop]
  simp

theorem tagged_text (t rest : List Char) (ht : hasPlaceholder t = false)
    (hrest : startsWithDigit rest = false) :
    replaceAllTaggedFrom 0 (t ++ rest)
      = t.map (fun c => (c, none)) ++ replaceAllTaggedFrom 0 rest := by
  induction t with
  | nil => rfl
  | cons c cs ih =>
    rw [hasPlaceholder_cons] at ht
    simp only [Bool.or_eq_false_iff, Bool.and_eq_false_iff, decide_eq_false_iff_not] at ht
    have hno : matchLen (c :: (cs ++ rest)) = none := by
      simp only [matchLen, ite_eq_right_iff]
      intro h
      have h2 := (digitsLen_pos_iff _).mp h.2
      rw [startsWithDigit_append _ _ hrest] at h2
      rcases ht.1 with h1 | h1
      · exact absurd h.1 h1
      · simp [h1] at h2
    rw [List.cons_append, replaceAllTaggedFrom, hno, ih ht.2]
    rfl

/-- The provenance scan finds exactly the placeholders at which the statement is
cut, and reads their numbers. -/
theorem placeholderArgs_split (lead : List Char) (parts : List (List Char × List Char))
    (h : WellSplit lead parts) :
    placeholderArgs (lead ++ sourceOf parts) = parts.map (fun p => decimalValue p.1) := by
  have hparts : ∀ ps : List (List Char × List Char), (∀ p ∈ ps, WellCut p) →
      (replaceAllTaggedFrom 0 (sourceOf ps)).filterMap Prod.snd
        = ps.map (fun p => decimalValue p.1) := by
    intro ps
    induction ps with
    | nil => intro _; rfl
    | cons p ps ih =>
      intro hps
      obtain ⟨hne, hds, hsd, hnp⟩ := hps p (List.mem_cons_self _ _)
      have htail : startsWithDigit (p.2 ++ sourceOf ps) = false := by
        rw [startsWithDigit_append _ _ (sourceOf_startsWithDigit ps)]; exact hsd
      simp only [sourceOf, List.cons_append, List.append_assoc]
      rw [tagged_placeholder p.1 _ hne hds htail,
        tagged_text p.2 _ hnp (sourceOf_startsWithDigit ps)]
      simp [List.filterMap_append, ih (fun q hq => hps q (List.mem_cons_of_mem _ hq))]
  unfold placeholderArgs
  rw [tagged_text lead _ h.1 (sourceOf_startsWithDigit parts)]
  simp [List.filterMap_append, hparts parts h.2]

/-! ## Claims on the placeholder rewrite -/

/-- C1. Every statement can be cut at the occurrences of the pattern (a `$`
followed by a maximal run of one or more ASCII digits, leftmost first), and for
every such cut the rewrite is the same text with each placeholder replaced by
one `?`, so it has one `?` more per placeholder and nothing else changes; the
insert statement of the handler becomes the one with `(?, ?, ?)`. -/
theorem replacePostgresPlaceholders_spec (q : String) :
    (∃ lead parts, WellSplit lead parts ∧ q.data = lead ++ sourceOf parts) ∧
    (∀ lead parts, WellSplit lead parts → q.data = lead ++ sourceOf parts →
      (replacePostgresPlaceholders q).data = lead ++ rewrittenOf parts ∧
      (replacePostgresPlaceholders q).data.count '?' = q.data.count '?' + parts.length) ∧
    replacePostgresPlaceholders "INSERT INTO persons (name, phone, company) VALUES ($1, $2, $3)"
      = "INSERT INTO persons (name, phone, company) VALUES (?, ?, ?)" := by
  refine ⟨exists_split q.data, ?_, by decide⟩
  intro lead parts hsplit hq
  have hout : (replacePostgresPlaceholders q).data = lead ++ rewrittenOf parts := by
    show replaceAll q.data = _
    rw [hq, replaceAll_split lead parts hsplit]
  refine ⟨hout, ?_⟩
  rw [hout, hq, List.count_append, List.count_append, count_rewrittenOf parts hsplit.2]
  omega

/-- C1, on the insert statement of `handleGenerate`: cut at `$1`, `$2`, `$3`, it
is rewritten to the text with three markers. -/
theorem replacePostgresPlaceholders_spec_witness :
    WellSplit "INSERT INTO persons (name, phone, company) VALUES (".data
      [("1".data, ", ".data), ("2".data, ", ".data), ("3".data, ")".data)] ∧
    (replacePostgresPlaceholders
        "INSERT INTO persons (name, phone, company) VALUES ($1, $2, $3)").data
      = "INSERT INTO persons (name, phone, company) VALUES (".data
          ++ rewrittenOf [("1".data, ", ".data), ("2".data, ", ".data), ("3".data, ")".data)] ∧
    (replacePostgresPlaceholders
        "INSERT INTO persons (name, phone, company) VALUES ($1, $2, $3)").data.count '?'
      = "INSERT INTO persons (name, phone, company) VALUES ($1, $2, $3)".data.count '?' + 3 :=
  ⟨by decide,
    (replacePostgresPlaceholders_spec
      "INSERT INTO persons (name, phone, company) VALUES ($1, $2, $3)").2.1
      "INSERT INTO persons (name, phone, company) VALUES (".data
      [("1".data, ", ".data), ("2".data, ", ".data), ("3".data, ")".data)]
      (by decide) (by decide)⟩

/-- C9. Rewriting twice is the same as rewriting once, and the rewritten
statement never has a `$` immediately followed by an ASCII digit; `$$1` becomes
`$?` and `$1$2` becomes `??`. -/
theorem replacePostgresPlaceholders_idempotent (q : String) :
    replacePostgresPlaceholders (replacePostgresPlaceholders q) = replacePostgresPlaceholders q ∧
    (∀ pre d post, (replacePostgresPlaceholders q).data = pre ++ '$' :: d :: post →
      isDigit d = false) ∧
    replacePostgresPlaceholders "$$1" = "$?" ∧
    replacePostgresPlaceholders "$1$2" = "??" := by
  refine ⟨?_, ?_, by decide, by decide⟩
  · show String.mk (replaceAll (replaceAll q.data)) = String.mk (replaceAll q.data)
    rw [replaceAll_of_no_placeholder _ (hasPlaceholder_replaceAll q.data)]
  · exact (hasPlaceholder_eq_false_iff _).mp (hasPlaceholder_replaceAll q.data)

/-- C2, as stated, fails: in the rewrite of `SELECT $2, $1` the first marker
stands in the place of `$2`, which referred to the second argument, and the
second marker in the place of `$1`; in the rewrite of `SELECT '?', $1` the first
`?` is a character of the statement and stands for no placeholder. -/
theorem markerArgs_swapped :
    replacePostgresPlaceholders "SELECT $2, $1" = "SELECT ?, ?" ∧
    markerArgs "SELECT $2, $1".data = [some 2, some 1] ∧
    ¬ (∀ k, k < (markerArgs "SELECT $2, $1".data).length →
        (markerArgs "SELECT $2, $1".data)[k]? = some (some (k + 1))) ∧
    replacePostgresPlaceholders "SELECT '?', $1" = "SELECT '?', ?" ∧
    markerArgs "SELECT '?', $1".data = [none, some 1] := by
  refine ⟨by decide, by decide, ?_, by decide, by decide⟩
  intro h
  exact absurd (h 0 (by decide)) (by decide)

/-- C2, amended. When the statement holds no `?` of its own and its placeholders,
read left to right, are numbered 1, 2, ..., n in that order, the rewritten
statement has exactly n markers and the k-th of them stands in the place of the
placeholder that referred to the k-th argument. -/
theorem markerArgs_in_order (q : String) (n : Nat) (hq : '?' ∉ q.data)
    (hnum : placeholderArgs q.data = List.range' 1 n) :
    (replaceAllTaggedFrom 0 q.data).map Prod.fst = (replacePostgresPlaceholders q).data ∧
    (replacePostgresPlaceholders q).data.count '?' = n ∧
    ∀ k, k < n → (markerArgs q.data)[k]? = some (some (k + 1)) := by
  have hmark : markerArgs q.data = (List.range' 1 n).map some := by
    unfold markerArgs
    rw [replaceAllTaggedFrom_markers 0 q.data hq]
    exact congrArg (List.map some) hnum
  refine ⟨replaceAllTaggedFrom_fst 0 q.data, ?_, ?_⟩
  · show (replaceAllFrom 0 q.data).count '?' = n
    rw [← replaceAllTaggedFrom_fst, count_map_fst]
    have := congrArg List.length hmark
    simpa [markerArgs] using this
  · intro k hk
    rw [hmark]
    simp [List.getElem?_map, List.getElem?_range', hk]
    omega

/-- C2, amended, on the insert statement of `handleGenerate`. -/
theorem markerArgs_in_order_witness :
    (replacePostgresPlaceholders insertStatement).data.count '?' = 3 ∧
    (markerArgs insertStatement.data)[0]? = some (some 1) ∧
    (markerArgs insertStatement.data)[1]? = some (some 2) ∧
    (markerArgs insertStatement.data)[2]? = some (some 3) :=
  have h := markerArgs_in_order insertStatement 3 (by decide) (by decide)
  ⟨h.2.1, h.2.2 0 (by decide), h.2.2 1 (by decide), h.2.2 2 (by decide)⟩

/-! ## Claims on `PostgresDB.Connect` -/

theorem wait_second : wrapInt64 (5 * Second * 2) = 10 * Second := by decide

theorem wait_third : wrapInt64 (10 * Second * 2) = 20 * Second := by decide

/-- C3. When each of the three attempts fails, `Connect` calls `sql.Open` three
times, waits 5 s, 10 s and 20 s, one wait right after each failed attempt,
returns the error of the third attempt, which is not nil, and leaves the
receiver as it was (so an unset handle stays unset). -/
theorem connect_unreachable (world : String → Nat → Attempt) (connString : String)
    (p : PostgresDB) (hfail : ∀ i, i < 3 → (world connString i).error ≠ none) :
    opens (p.Connect world connString).events = 3 ∧
    sleeps (p.Connect world connString).events = [5 * Second, 10 * Second, 20 * Second] ∧
    (p.Connect world connString).events = failedRounds world connString 3 ∧
    (p.Connect world connString).err = (world connString 2).error ∧
    (p.Connect world connString).err ≠ none ∧
    (p.Connect world connString).db = p ∧
    (p.DB = none → (p.Connect world connString).db.DB = none) := by
  have h0 := hfail 0 (by decide)
  have h1 := hfail 1 (by decide)
  have h2 := hfail 2 (by decide)
  cases w0 : world connString 0 <;> cases w1 : world connString 1 <;>
    cases w2 : world connString 2 <;>
    simp [w0, w1, w2, Attempt.error] at h0 h1 h2 <;>
    simp [PostgresDB.Connect, connectLoop, failedRounds, Attempt.events, Attempt.error,
      opens, sleeps, w0, w1, w2, wait_second, wait_third] <;>
    norm_num [Second]

/-- C3, on a server that refuses three times: the first `sql.Open` fails, the
next two handles fail to answer the ping. -/
theorem connect_unreachable_witness :
    opens ((PostgresDB.mk none).Connect
      (fun _ i => if i = 0 then .openFailed "bad dsn" else .pingFailed i "refused")
      "host=db").events = 3 ∧
    sleeps ((PostgresDB.mk none).Connect
      (fun _ i => if i = 0 then .openFailed "bad dsn" else .pingFailed i "refused")
      "host=db").events = [5 * Second, 10 * Second, 20 * Second] ∧
    ((PostgresDB.mk none).Connect
      (fun _ i => if i = 0 then .openFailed "bad dsn" else .pingFailed i "refused")
      "host=db").db = PostgresDB.mk none :=
  have h := connect_unreachable
    (fun _ i => if i = 0 then .openFailed "bad dsn" else .pingFailed i "refused")
    "host=db" (PostgresDB.mk none) (by decide)
  ⟨h.1, h.2.1, h.2.2.2.2.2.1⟩

/-- C10. If the attempts before attempt `k` (counted from 0, `k < 3`) fail and
attempt `k` opens and pings, `Connect` returns nil with the handle of attempt
`k` stored, after `k + 1` calls of `sql.Open` and the `k` waits of 5 s doubled
`i` times for `i < k`, none after the success; the handles of the failed
attempts that had been opened are closed, each before the wait of its attempt.
`Connect` returns nil exactly when one of the first three attempts succeeds. -/
theorem connect_first_success (world : String → Nat → Attempt) (connString : String)
    (p : PostgresDB) :
    (∀ (k : Nat) (db : Handle), k < 3 →
      (∀ i, i < k → (world connString i).error ≠ none) →
      world connString k = .connected db →
      (p.Connect world connString).err = none ∧
      (p.Connect world connString).db.DB = some db ∧
      opens (p.Connect world connString).events = k + 1 ∧
      sleeps (p.Connect world connString).events
        = (List.range k).map (fun i => 5 * Second * 2 ^ i) ∧
      closes (p.Connect world connString).events
        = (List.range k).filterMap (fun i => (world connString i).openedAndFailed) ∧
      (p.Connect world connString).events
        = failedRounds world connString k ++ [.sqlOpen "postgres" connString, .ping db]) ∧
    ((p.Connect world connString).err = none ↔
      ∃ i, i < 3 ∧ ∃ db, world connString i = .connected db) := by
  constructor
  · intro k db hk hfail hok
    have hk3 : k = 0 ∨ k = 1 ∨ k = 2 := by omega
    rcases hk3 with rfl | rfl | rfl
    · simp [PostgresDB.Connect, connectLoop, failedRounds, opens, sleeps, closes, hok]
    · have h0 := hfail 0 (by decide)
      cases w0 : world connString 0 <;> simp [w0, Attempt.error] at h0 <;>
        simp [PostgresDB.Connect, connectLoop, failedRounds, Attempt.events,
          Attempt.openedAndFailed, opens, sleeps, closes, hok, w0, List.range_succ]
    · have h0 := hfail 0 (by decide)
      have h1 := hfail 1 (by decide)
      cases w0 : world connString 0 <;> cases w1 : world connString 1 <;>
        simp [w0, w1, Attempt.error] at h0 h1 <;>
        simp [PostgresDB.Connect, connectLoop, failedRounds, Attempt.events,
          Attempt.openedAndFailed, opens, sleeps, closes, hok, w0, w1, List.range_succ,
          wait_second] <;>
        norm_num [Second]
  · constructor
    · intro herr
      cases w0 : world connString 0 with
      | connected db => exact ⟨0, by decide, db, w0⟩
      | openFailed e0 =>
        cases w1 : world connString 1 with
        | connected db => exact ⟨1, by decide, db, w1⟩
        | openFailed e1 =>
          cases w2 : world connString 2 with
          | connected db => exact ⟨2, by decide, db, w2⟩
          | openFailed e2 => simp [PostgresDB.Connect, connectLoop, w0, w1, w2] at herr
          | pingFailed d2 e2 => simp [PostgresDB.Connect, connectLoop, w0, w1, w2] at herr
        | pingFailed d1 e1 =>
          cases w2 : world connString 2 with
          | connected db => exact ⟨2, by decide, db, w2⟩
          | openFailed e2 => simp [PostgresDB.Connect, connectLoop, w0, w1, w2] at herr
          | pingFailed d2 e2 => simp [PostgresDB.Connect, connectLoop, w0, w1, w2] at herr
      | pingFailed d0 e0 =>
        cases w1 : world connString 1 with
        | connected db => exact ⟨1, by decide, db, w1⟩
        | openFailed e1 =>
          cases w2 : world connString 2 with
          | connected db => exact ⟨2, by decide, db, w2⟩
          | openFailed e2 => simp [PostgresDB.Connect, connectLoop, w0, w1, w2] at herr
          | pingFailed d2 e2 => simp [PostgresDB.Connect, connectLoop, w0, w1, w2] at herr
        | pingFailed d1 e1 =>
          cases w2 : world connString 2 with
          | connected db => exact ⟨2, by decide, db, w2⟩
          | openFailed e2 => simp [PostgresDB.Connect, connectLoop, w0, w1, w2] at herr
          | pingFailed d2 e2 => simp [PostgresDB.Connect, connectLoop, w0, w1, w2] at herr
    · rintro ⟨i, hi, db, hok⟩
      cases w0 : world connString 0 <;> cases w1 : world connString 1 <;>
        cases w2 : world connString 2 <;>
        simp [PostgresDB.Connect, connectLoop, w0, w1, w2] <;>
        (have hi3 : i = 0 ∨ i = 1 ∨ i = 2 := by omega
         rcases hi3 with rfl | rfl | rfl <;> simp_all)

/-- C10, on a server that answers the third attempt: two waits, the handle of
the second attempt closed, the handle of the third stored. -/
theorem connect_first_success_witness :
    ((PostgresDB.mk none).Connect
      (fun _ i => if i = 0 then .openFailed "bad dsn" else if i = 1 then .pingFailed 7 "refused"
        else .connected 8) "host=db").err = none ∧
    ((PostgresDB.mk none).Connect
      (fun _ i => if i = 0 then .openFailed "bad dsn" else if i = 1 then .pingFailed 7 "refused"
        else .connected 8) "host=db").db.DB = some 8 ∧
    opens ((PostgresDB.mk none).Connect
      (fun _ i => if i = 0 then .openFailed "bad dsn" else if i = 1 then .pingFailed 7 "refused"
        else .connected 8) "host=db").events = 2 + 1 :=
  have h := (connect_first_success
    (fun _ i => if i = 0 then .openFailed "bad dsn" else if i = 1 then .pingFailed 7 "refused"
      else .connected 8) "host=db" (PostgresDB.mk none)).1 2 8 (by decide) (by decide) (by decide)
  ⟨h.1, h.2.1, h.2.2.1⟩

/-! ## Claims on the statement routes -/

/-- C4. On a connected `SqliteDB`, `Exec` and `ExecContext` hand the driver the
rewritten statement with the same arguments, and so does the migration that
`run` issues through `Exec`; `Query` hands it the statement as written; every
`PostgresDB` operation hands it the statement as written. -/
theorem sqlite_rewrites_writes_only (s : SqliteDB) (p : PostgresDB) (hs hp : Handle)
    (hsdb : s.DB = some hs) (hpdb : p.DB = some hp)
    (ctx : Nat) (q : String) (args : List Arg) (schemaSQLSqlite schemaSQLPostgres : String) :
    s.Exec q args = some ⟨hs, .exec, replacePostgresPlaceholders q, args⟩ ∧
    s.ExecContext ctx q args = some ⟨hs, .execContext ctx, replacePostgresPlaceholders q, args⟩ ∧
    runMigration (.sqlite s) "sqlite" schemaSQLSqlite schemaSQLPostgres
      = some ⟨hs, .exec, replacePostgresPlaceholders schemaSQLSqlite, []⟩ ∧
    s.Query q args = some ⟨hs, .query, q, args⟩ ∧
    p.Query q args = some ⟨hp, .query, q, args⟩ ∧
    p.Exec q args = some ⟨hp, .exec, q, args⟩ ∧
    p.ExecContext ctx q args = some ⟨hp, .execContext ctx, q, args⟩ ∧
    runMigration (.postgres p) "postgres" schemaSQLSqlite schemaSQLPostgres
      = some ⟨hp, .exec, schemaSQLPostgres, []⟩ := by
  simp [SqliteDB.Exec, SqliteDB.ExecContext, SqliteDB.Query, PostgresDB.Query, PostgresDB.Exec,
    PostgresDB.ExecContext, runMigration, Database.Exec, hsdb, hpdb]

/-- C4, on the insert statement: the write routes of the file-based backend
carry the markers, its read route and the networked backend the numbered
placeholders. -/
theorem sqlite_rewrites_writes_only_witness :
    (SqliteDB.mk (some 1)).ExecContext 0 insertStatement ["a", "b", "c"]
      = some ⟨1, .execContext 0,
          "INSERT INTO persons (name, phone, company) VALUES (?, ?, ?)", ["a", "b", "c"]⟩ ∧
    (SqliteDB.mk (some 1)).Query insertStatement ["a", "b", "c"]
      = some ⟨1, .query, insertStatement, ["a", "b", "c"]⟩ ∧
    (PostgresDB.mk (some 2)).ExecContext 0 insertStatement ["a", "b", "c"]
      = some ⟨2, .execContext 0, insertStatement, ["a", "b", "c"]⟩ := by
  have h := sqlite_rewrites_writes_only (SqliteDB.mk (some 1)) (PostgresDB.mk (some 2)) 1 2
    rfl rfl 0 insertStatement ["a", "b", "c"] "" ""
  have hq : replacePostgresPlaceholders insertStatement
      = "INSERT INTO persons (name, phone, company) VALUES (?, ?, ?)" := by decide
  exact ⟨hq ▸ h.2.1, h.2.2.2.1, h.2.2.2.2.2.2.1⟩

/-! ## Claims on the handlers -/

/-- C5. A `POST` whose insert the database rejects is answered by `handleGenerate`
with status 405 (`http.StatusMethodNotAllowed`), which is not a 5xx status; no
redirect is issued. -/
theorem handleGenerate_rejected_insert :
    handleGenerate (.sqlite (SqliteDB.mk (some 1)))
        ⟨fun _ => some "UNIQUE constraint failed", fun _ => .error "no rows"⟩
        "Ada" "555-0100" "Initech" ⟨"POST", fun _ => "", fun _ => "", "/", 0⟩
      = [.driver ⟨1, .execContext 0,
            "INSERT INTO persons (name, phone, company) VALUES (?, ?, ?)",
            ["Ada", "555-0100", "Initech"]⟩,
         .httpError "Method not alllowed" 405] ∧
    statusCode (handleGenerate (.sqlite (SqliteDB.mk (some 1)))
        ⟨fun _ => some "UNIQUE constraint failed", fun _ => .error "no rows"⟩
        "Ada" "555-0100" "Initech" ⟨"POST", fun _ => "", fun _ => "", "/", 0⟩) = some 405 ∧
    ¬ (∃ code, statusCode (handleGenerate (.sqlite (SqliteDB.mk (some 1)))
        ⟨fun _ => some "UNIQUE constraint failed", fun _ => .error "no rows"⟩
        "Ada" "555-0100" "Initech" ⟨"POST", fun _ => "", fun _ => "", "/", 0⟩) = some code ∧
        500 ≤ code ∧ code < 600) ∧
    redirects (handleGenerate (.sqlite (SqliteDB.mk (some 1)))
        ⟨fun _ => some "UNIQUE constraint failed", fun _ => .error "no rows"⟩
        "Ada" "555-0100" "Initech" ⟨"POST", fun _ => "", fun _ => "", "/", 0⟩) = [] := by
  have heff : handleGenerate (.sqlite (SqliteDB.mk (some 1)))
        ⟨fun _ => some "UNIQUE constraint failed", fun _ => .error "no rows"⟩
        "Ada" "555-0100" "Initech" ⟨"POST", fun _ => "", fun _ => "", "/", 0⟩
      = [.driver ⟨1, .execContext 0,
            "INSERT INTO persons (name, phone, company) VALUES (?, ?, ?)",
            ["Ada", "555-0100", "Initech"]⟩,
         .httpError "Method not alllowed" 405] := by decide
  rw [heff]
  refine ⟨rfl, rfl, ?_, rfl⟩
  rintro ⟨code, hcode, hlo, _⟩
  simp [statusCode] at hcode
  omega

/-- C6. A request whose method is not `POST` is answered by `handleGenerate` with
status 405; no statement is issued to the database and no redirect is sent. -/
theorem handleGenerate_wrong_method (database : Database) (driver : Driver)
    (name phone company : String) (r : Request) (hmethod : r.Method ≠ "POST") :
    handleGenerate database driver name phone company r
      = [.httpError "Method not allowed" 405] ∧
    statusCode (handleGenerate database driver name phone company r) = some 405 ∧
    driverCalls (handleGenerate database driver name phone company r) = [] ∧
    redirects (handleGenerate database driver name phone company r) = [] := by
  have heff : handleGenerate database driver name phone company r
      = [.httpError "Method not allowed" 405] := by
    simp [handleGenerate, hmethod, StatusMethodNotAllowed]
  rw [heff]
  exact ⟨rfl, rfl, rfl, rfl⟩

/-- C6, on a `GET` request. -/
theorem handleGenerate_wrong_method_witness :
    statusCode (handleGenerate (.sqlite (SqliteDB.mk (some 1))) (tableDriver [])
      "Ada" "555-0100" "Initech" ⟨"GET", fun _ => "", fun _ => "", "/", 0⟩) = some 405 ∧
    driverCalls (handleGenerate (.sqlite (SqliteDB.mk (some 1))) (tableDriver [])
      "Ada" "555-0100" "Initech" ⟨"GET", fun _ => "", fun _ => "", "/", 0⟩) = [] :=
  have h := handleGenerate_wrong_method (.sqlite (SqliteDB.mk (some 1))) (tableDriver [])
    "Ada" "555-0100" "Initech" ⟨"GET", fun _ => "", fun _ => "", "/", 0⟩ (by decide)
  ⟨h.2.1, h.2.2.1⟩

/-- C7. When the `region` query parameter is non-empty and differs from
`FLY_REGION`, `handleIndex` sets the header `fly-replay` to `region=` followed
by the requested region and returns: no statement is issued to the database and
nothing is written. -/
theorem handleIndex_other_region (getenv : String → String) (database : Database)
    (driver : Driver) (indexTmpl : TemplateData → List String × Option Err) (r : Request)
    (hset : r.queryGet "region" ≠ "") (hother : r.queryGet "region" ≠ getenv "FLY_REGION") :
    handleIndex getenv database driver indexTmpl r
      = [.logPrintf "redirecting from %q to %q" [getenv "FLY_REGION", r.queryGet "region"],
         .headerSet "fly-replay" ("region=" ++ r.queryGet "region")] ∧
    headerValue "fly-replay" (handleIndex getenv database driver indexTmpl r)
      = some ("region=" ++ r.queryGet "region") ∧
    driverCalls (handleIndex getenv database driver indexTmpl r) = [] ∧
    written (handleIndex getenv database driver indexTmpl r) = [] := by
  have heff : handleIndex getenv database driver indexTmpl r
      = [.logPrintf "redirecting from %q to %q" [getenv "FLY_REGION", r.queryGet "region"],
         .headerSet "fly-replay" ("region=" ++ r.queryGet "region")] := by
    simp [handleIndex, hset, hother]
  rw [heff]
  refine ⟨rfl, ?_, rfl, rfl⟩
  simp [headerValue]

/-- C7, on `GET /?region=fra` in region `iad`. -/
theorem handleIndex_other_region_witness :
    headerValue "fly-replay"
      (handleIndex (fun key => if key = "FLY_REGION" then "iad" else "")
        (.sqlite (SqliteDB.mk (some 1))) (tableDriver []) (fun _ => ([], none))
        ⟨"GET", fun key => if key = "region" then "fra" else "", fun _ => "", "", 0⟩)
      = some "region=fra" ∧
    driverCalls
      (handleIndex (fun key => if key = "FLY_REGION" then "iad" else "")
        (.sqlite (SqliteDB.mk (some 1))) (tableDriver []) (fun _ => ([], none))
        ⟨"GET", fun key => if key = "region" then "fra" else "", fun _ => "", "", 0⟩) = [] :=
  have h := handleIndex_other_region (fun key => if key = "FLY_REGION" then "iad" else "")
    (.sqlite (SqliteDB.mk (some 1))) (tableDriver []) (fun _ => ([], none))
    ⟨"GET", fun key => if key = "region" then "fra" else "", fun _ => "", "", 0⟩
    (by decide) (by decide)
  ⟨h.2.1, h.2.2.1⟩

theorem scanRows_ok (persons rows : List Person) :
    scanRows persons (rows.map .ok) = .ok (persons ++ rows) := by
  induction rows generalizing persons with
  | nil => simp [scanRows]
  | cons row rest ih => simp [scanRows, ih]

theorem written_lines (rows : List Person) :
    written (rows.map (fun person => Effect.write (personLine person)))
      = rows.map personLine := by
  induction rows with
  | nil => rfl
  | cons row rest ih =>
    simp only [written] at ih
    simp [written, ih]

theorem selectLatest_sorted (table : List Person) :
    (selectLatest table).Pairwise (fun a b => b.ID ≤ a.ID) := by
  haveI : IsTotal Person (fun a b => b.ID ≤ a.ID) := ⟨fun a b => le_total b.ID a.ID⟩
  haveI : IsTrans Person (fun a b => b.ID ≤ a.ID) := ⟨fun _ _ _ hab hbc => le_trans hbc hab⟩
  exact (List.sorted_insertionSort (fun a b : Person => b.ID ≤ a.ID) table).sublist
    (List.take_sublist _ _)

theorem selectLatest_largest (table : List Person) (a b : Person)
    (ha : a ∈ selectLatest table) (hb : b ∈ table) (hnb : b ∉ selectLatest table) :
    b.ID ≤ a.ID := by
  haveI : IsTotal Person (fun a b => b.ID ≤ a.ID) := ⟨fun a b => le_total b.ID a.ID⟩
  haveI : IsTrans Person (fun a b => b.ID ≤ a.ID) := ⟨fun _ _ _ hab hbc => le_trans hbc hab⟩
  have hsorted := List.sorted_insertionSort (fun a b : Person => b.ID ≤ a.ID) table
  have hmem : b ∈ table.insertionSort (fun a b => b.ID ≤ a.ID) :=
    (List.perm_insertionSort _ table).mem_iff.mpr hb
  rw [← List.take_append_drop 10 (table.insertionSort fun a b => b.ID ≤ a.ID)] at hmem hsorted
  rcases List.mem_append.mp hmem with h | h
  · exact absurd h hnb
  · exact (List.pairwise_append.mp hsorted).2.2 a ha b h

/-- C8. For a request that is not redirected to another region and whose
`accept` header is `text/plain`, when the read statement succeeds with rows
`rows`, `handleIndex` writes `REGION: <region>` and an empty line, then one line
`- <name> @ <company> (<phone>)` per row, in the order of the rows, and nothing
else; the status is 200. The rows selected from a table are at most ten of its
rows, in descending identifier order, and no row left out has a larger
identifier than a selected one; on the table holding (1, "A") and (2, "B") the
line of "B" is written before the line of "A". -/
theorem handleIndex_text (getenv : String → String) (database : Database) (driver : Driver)
    (indexTmpl : TemplateData → List String × Option Err) (r : Request)
    (call : DriverCall) (rows : List Person)
    (hregion : r.queryGet "region" = "" ∨ r.queryGet "region" = getenv "FLY_REGION")
    (haccept : r.headerGet "accept" = "text/plain")
    (hcall : database.Query indexQuery [] = some call)
    (hrows : driver.query call = .ok ⟨rows.map .ok, none⟩) :
    handleIndex getenv database driver indexTmpl r
      = [.driver call, .rowsClose, .write ("REGION: " ++ getenv "FLY_REGION" ++ "\n\n")]
          ++ rows.map (fun person =>
              .write ("- " ++ person.Name ++ " @ " ++ person.Company
                ++ " (" ++ person.Phone ++ ")\n"))
          ++ [.rowsClose] ∧
    concatAll (written (handleIndex getenv database driver indexTmpl r))
      = "REGION: " ++ getenv "FLY_REGION" ++ "\n\n"
          ++ concatAll (rows.map fun person =>
              "- " ++ person.Name ++ " @ " ++ person.Company ++ " (" ++ person.Phone ++ ")\n") ∧
    statusCode (handleIndex getenv database driver indexTmpl r) = some 200 ∧
    (∀ table : List Person,
      (selectLatest table).length ≤ 10 ∧
      (selectLatest table).Subperm table ∧
      (selectLatest table).Pairwise (fun a b => b.ID ≤ a.ID) ∧
      ∀ a b, a ∈ selectLatest table → b ∈ table → b ∉ selectLatest table → b.ID ≤ a.ID) ∧
    (∀ (db : Handle) (phoneA companyA phoneB companyB : String),
      written (handleIndex getenv (.sqlite (SqliteDB.mk (some db)))
        (tableDriver [⟨1, "A", phoneA, companyA⟩, ⟨2, "B", phoneB, companyB⟩]) indexTmpl r)
      = ["REGION: " ++ getenv "FLY_REGION" ++ "\n\n",
         "- B @ " ++ companyB ++ " (" ++ phoneB ++ ")\n",
         "- A @ " ++ companyA ++ " (" ++ phoneA ++ ")\n"]) := by
  have hcond : ¬ (r.queryGet "region" ≠ "" ∧ r.queryGet "region" ≠ getenv "FLY_REGION") := by
    rintro ⟨h1, h2⟩
    rcases hregion with h | h
    · exact h1 h
    · exact h2 h
  have heff : handleIndex getenv database driver indexTmpl r
      = [.driver call, .rowsClose, .write ("REGION: " ++ getenv "FLY_REGION" ++ "\n\n")]
          ++ rows.map (fun person => .write (personLine person)) ++ [.rowsClose] := by
    have hscan := scanRows_ok [] rows
    simp only [List.nil_append] at hscan
    simp only [handleIndex, if_neg hcond, hcall, hrows, hscan, haccept, if_true]
  refine ⟨heff, ?_, ?_, ?_, ?_⟩
  · rw [heff]
    have hw : written ([Effect.driver call, .rowsClose,
          .write ("REGION: " ++ getenv "FLY_REGION" ++ "\n\n")]
          ++ rows.map (fun person => Effect.write (personLine person)) ++ [.rowsClose])
        = ("REGION: " ++ getenv "FLY_REGION" ++ "\n\n") :: rows.map personLine := by
      have := written_lines rows
      simp only [written] at this
      simp [written, List.filterMap_append, this]
    rw [hw]
    rfl
  · rw [heff]
    rfl
  · intro table
    refine ⟨List.length_take_le _ _, ?_, selectLatest_sorted table,
      fun a b ha hb hnb => selectLatest_largest table a b ha hb hnb⟩
    exact (List.take_sublist _ _).subperm.trans (List.perm_insertionSort _ table).subperm
  · intro db phoneA companyA phoneB companyB
    simp [handleIndex, hcond, haccept, Database.Query, SqliteDB.Query, tableDriver,
      selectLatest, List.insertionSort, List.orderedInsert, scanRows, written, personLine]

/-- C8, on a table with two rows read over the file-based backend. -/
theorem handleIndex_text_witness :
    concatAll (written (handleIndex (fun _ => "iad") (.sqlite (SqliteDB.mk (some 1)))
      (tableDriver [⟨1, "A", "1", "x"⟩, ⟨2, "B", "2", "y"⟩]) (fun _ => ([], none))
      ⟨"GET", fun _ => "", fun key => if key = "accept" then "text/plain" else "", "", 0⟩))
    = "REGION: iad\n\n- B @ y (2)\n- A @ x (1)\n" :=
  (handleIndex_text (fun _ => "iad") (.sqlite (SqliteDB.mk (some 1)))
    (tableDriver [⟨1, "A", "1", "x"⟩, ⟨2, "B", "2", "y"⟩]) (fun _ => ([], none))
    ⟨"GET", fun _ => "", fun key => if key = "accept" then "text/plain" else "", "", 0⟩
    ⟨1, .query, indexQuery, []⟩ [⟨2, "B", "2", "y"⟩, ⟨1, "A", "1", "x"⟩]
    (by decide) (by decide) (by decide) rfl).2.1

end LitefsBench
